import Mathlib

/-!
Formal model of the gym packing checklist (`src/script.js`).

The script keeps one mutable array `items` of `{ text, checked }` records,
persists it as JSON under a single localStorage key, renders it sorted by
completion state, and supports export/import of the list as a JSON file.
Every handler below is translated directly from the corresponding function
in `src/script.js`; the DOM and modal plumbing is out of scope, so user
confirmations appear as a `Bool` argument and alerts/outcomes appear as
explicit result values.
-/

/-- Model of one checklist entry, `{ text: string, checked: boolean }`. -/
structure Item where
  text : String
  checked : Bool
deriving DecidableEq, Repr

/-- Translation of the `DEFAULT_ITEMS` constant (script.js lines 23-30). -/
def DEFAULT_ITEMS : List Item :=
  [⟨"Towel", false⟩,
   ⟨"Water bottle", false⟩,
   ⟨"Headphones", false⟩,
   ⟨"Gym shoes", false⟩,
   ⟨"Workout clothes", false⟩,
   ⟨"Lock", false⟩]

/-- Characters removed by `String.prototype.trim`: the ECMAScript
WhiteSpace and LineTerminator sets. -/
def jsWhitespace (c : Char) : Bool :=
  c = ' ' || c = '\t' || c = '\n' || c = '\r' || c = '\x0b' || c = '\x0c' ||
  c = '\u00A0' || c = '\uFEFF' || c = '\u1680' ||
  ('\u2000' ≤ c && c ≤ '\u200A') ||
  c = '\u2028' || c = '\u2029' || c = '\u202F' || c = '\u205F' || c = '\u3000'

/-- Model of `String.prototype.trim`: drop leading and trailing whitespace. -/
def jsTrim (s : String) : String :=
  ⟨(((s.data.dropWhile jsWhitespace).reverse.dropWhile jsWhitespace).reverse)⟩

/-- Model of `String.prototype.toLowerCase` on one character.  The script
only uses it for case-insensitive duplicate comparison; this model covers
the Basic Latin range (the full Unicode case mapping is outside the model). -/
def jsToLowerChar (c : Char) : Char :=
  if 'A' ≤ c && c ≤ 'Z' then Char.ofNat (c.toNat + 32) else c

/-- Model of `String.prototype.toLowerCase`. -/
def jsToLower (s : String) : String :=
  ⟨s.data.map jsToLowerChar⟩

/-- Model of `String.prototype.endsWith`. -/
def jsEndsWith (s pat : String) : Bool :=
  pat.data.isSuffixOf s.data

/-- The two validation failures of `handleAddItem` (script.js lines 239-252):
the empty-after-trim alert and the duplicate alert. -/
inductive AddError where
  | emptyText
  | duplicateText
deriving DecidableEq, Repr

/-- Translation of `handleAddItem` (script.js lines 235-269).  The raw input
string is trimmed; an empty result or a case-insensitive duplicate aborts the
handler before the state is touched, otherwise a new unchecked item is pushed
at the end of the array. -/
def handleAddItem (raw : String) (items : List Item) : Except AddError (List Item) :=
  let text := jsTrim raw
  if text = "" then
    .error .emptyText
  else
    match items.find? (fun it => jsToLower it.text == jsToLower text) with
    | some _ => .error .duplicateText
    | none => .ok (items ++ [⟨text, false⟩])

/-- Translation of `handleToggleItem` (script.js lines 275-281).  The guard
`index >= 0 && index < items.length` silently skips out-of-range indices
(`none`: no mutation, no persist); in range, the item's `checked` flag is
negated in place. -/
def handleToggleItem (index : Int) (items : List Item) : Option (List Item) :=
  if 0 ≤ index ∧ index < items.length then
    some (items.set index.toNat
      (let it := items.getD index.toNat ⟨"", false⟩
       ⟨it.text, !it.checked⟩))
  else
    none

/-- Translation of `handleDeleteItem` (script.js lines 287-301).  Same bounds
guard as toggle; the user confirmation dialog is modelled by the `confirmed`
argument; on confirmation the item is spliced out of the array. -/
def handleDeleteItem (index : Int) (confirmed : Bool) (items : List Item) :
    Option (List Item) :=
  if 0 ≤ index ∧ index < items.length then
    if confirmed then some (items.eraseIdx index.toNat) else none
  else
    none

/-- Translation of the confirmed branch of `handleReset` (script.js lines
327-335): every item's `checked` flag is cleared and the result saved.  The
guards at lines 308-319 (empty list, nothing checked) and the confirmation
dialog are the advisory caller-side short-circuit; this is the core
`resetChecks` operation of the spec. -/
def resetChecks (items : List Item) : List Item :=
  items.map fun it => ⟨it.text, false⟩

/-- JSON data model: the values `JSON.parse` can produce and `JSON.stringify`
can consume.  Numbers are kept as their source lexeme (the script never
computes with numbers; they can only appear inside hand-edited import files). -/
inductive JVal where
  | null
  | bool (b : Bool)
  | num (lexeme : String)
  | str (s : String)
  | arr (elems : List JVal)
  | obj (fields : List (String × JVal))

/-- Lowercase hexadecimal digit, as emitted by `JSON.stringify` escapes. -/
def hexDigit (n : Nat) : Char :=
  if n < 10 then Char.ofNat (48 + n) else Char.ofNat (87 + n)

/-- Escape of one character inside a JSON string literal, following the
ECMAScript QuoteJSONString algorithm. -/
def escChar (c : Char) : List Char :=
  if c = '\"' then ['\\', '\"']
  else if c = '\\' then ['\\', '\\']
  else if c = '\x08' then ['\\', 'b']
  else if c = '\t' then ['\\', 't']
  else if c = '\n' then ['\\', 'n']
  else if c = '\x0c' then ['\\', 'f']
  else if c = '\r' then ['\\', 'r']
  else if c.toNat < 32 then
    ['\\', 'u', '0', '0', hexDigit (c.toNat / 16), hexDigit (c.toNat % 16)]
  else [c]

/-- A quoted JSON string literal. -/
def quoteStr (s : String) : List Char :=
  '\"' :: (s.data.map escChar).flatten ++ ['\"']

mutual

/-- Model of `JSON.stringify(v, null, 2)` (the export serializer,
script.js line 354): pretty printing with a two-space gap, `ind` being the
accumulated indentation of the enclosing value. -/
def strVal (ind : List Char) : JVal → List Char
  | .null => ['n', 'u', 'l', 'l']
  | .bool b => if b then ['t', 'r', 'u', 'e'] else ['f', 'a', 'l', 's', 'e']
  | .num lex => lex.data
  | .str s => quoteStr s
  | .arr [] => ['[', ']']
  | .arr (v :: vs) =>
      '[' :: '\n' :: (ind ++ [' ', ' ']) ++ strElems (ind ++ [' ', ' ']) v vs ++
        '\n' :: ind ++ [']']
  | .obj [] => ['\x7b', '\x7d']
  | .obj (f :: fs) =>
      '\x7b' :: '\n' :: (ind ++ [' ', ' ']) ++ strFields (ind ++ [' ', ' ']) f fs ++
        '\n' :: ind ++ ['\x7d']
termination_by v => sizeOf v
decreasing_by all_goals (simp_wf; try omega)

/-- Array elements joined by a comma, newline and the current indentation. -/
def strElems (ind : List Char) (v : JVal) (vs : List JVal) : List Char :=
  match vs with
  | [] => strVal ind v
  | w :: ws => strVal ind v ++ ',' :: '\n' :: ind ++ strElems ind w ws
termination_by sizeOf v + sizeOf vs
decreasing_by all_goals (simp_wf; try omega)

/-- Object members `"key": value` joined like array elements. -/
def strFields (ind : List Char) : String × JVal → List (String × JVal) → List Char
  | (k, w), [] => quoteStr k ++ ':' :: ' ' :: strVal ind w
  | (k, w), g :: gs =>
      quoteStr k ++ ':' :: ' ' :: strVal ind w ++ ',' :: '\n' :: ind ++
        strFields ind g gs
termination_by f fs => sizeOf f + sizeOf fs
decreasing_by all_goals (simp_wf; try omega)

end

mutual

/-- Model of compact `JSON.stringify(v)` (the localStorage serializer,
script.js line 130): no whitespace at all. -/
def strValC : JVal → List Char
  | .null => ['n', 'u', 'l', 'l']
  | .bool b => if b then ['t', 'r', 'u', 'e'] else ['f', 'a', 'l', 's', 'e']
  | .num lex => lex.data
  | .str s => quoteStr s
  | .arr [] => ['[', ']']
  | .arr (v :: vs) => '[' :: strElemsC v vs ++ [']']
  | .obj [] => ['\x7b', '\x7d']
  | .obj (f :: fs) => '\x7b' :: strFieldsC f fs ++ ['\x7d']
termination_by v => sizeOf v
decreasing_by all_goals (simp_wf; try omega)

/-- Compact array elements joined by commas. -/
def strElemsC (v : JVal) (vs : List JVal) : List Char :=
  match vs with
  | [] => strValC v
  | w :: ws => strValC v ++ ',' :: strElemsC w ws
termination_by sizeOf v + sizeOf vs
decreasing_by all_goals (simp_wf; try omega)

/-- Compact object members `"key":value` joined by commas. -/
def strFieldsC : String × JVal → List (String × JVal) → List Char
  | (k, w), [] => quoteStr k ++ ':' :: strValC w
  | (k, w), g :: gs => quoteStr k ++ ':' :: strValC w ++ ',' :: strFieldsC g gs
termination_by f fs => sizeOf f + sizeOf fs
decreasing_by all_goals (simp_wf; try omega)

end

/-- One item as `JSON.stringify` sees it: an object with the fields `text`
then `checked`, in declaration order. -/
def itemJson (it : Item) : JVal :=
  .obj [("text", .str it.text), ("checked", .bool it.checked)]

/-- The canonical sequence as a JSON value (array in insertion order). -/
def itemsToJson (items : List Item) : JVal :=
  .arr (items.map itemJson)

/-- The pretty JSON text produced by `handleExport` (script.js line 354). -/
def exportString (items : List Item) : String :=
  ⟨strVal [] (itemsToJson items)⟩

/-- Translation of `handleExport` (script.js lines 346-381): an empty list
aborts before any serialization with only a notice shown (`none`); otherwise
the pretty JSON snapshot is produced for download.  The handler never touches
the item list or the persistence medium. -/
def handleExport (items : List Item) : Option String :=
  if items.length = 0 then none else some (exportString items)

/-- The compact JSON text written by `saveItems` (script.js lines 128-139). -/
def saveString (items : List Item) : String :=
  ⟨strValC (itemsToJson items)⟩

/-- The whitespace characters `JSON.parse` skips between tokens. -/
def isJsonWs (c : Char) : Bool :=
  c = ' ' || c = '\t' || c = '\n' || c = '\r'

/-- Skip insignificant whitespace. -/
def skipWs (cs : List Char) : List Char :=
  cs.dropWhile isJsonWs

/-- Value of one hexadecimal digit, if any. -/
def hexVal (c : Char) : Option Nat :=
  if '0' ≤ c && c ≤ '9' then some (c.toNat - 48)
  else if 'a' ≤ c && c ≤ 'f' then some (c.toNat - 87)
  else if 'A' ≤ c && c ≤ 'F' then some (c.toNat - 55)
  else none

/-- Body of a JSON string literal, after the opening quote: returns the
decoded characters and the input after the closing quote.  Escape sequences
follow the JSON grammar; a `\uXXXX` escape that does not denote a valid
Unicode scalar value decodes to `Char.ofNat`'s fallback, and raw control
characters are rejected, as by `JSON.parse`. -/
def parseStringBody : List Char → Option (List Char × List Char)
  | [] => none
  | c :: rest =>
    if c = '\"' then some ([], rest)
    else if c = '\\' then
      match rest with
      | 'u' :: h1 :: h2 :: h3 :: h4 :: rest' => do
          let a ← hexVal h1
          let b ← hexVal h2
          let c ← hexVal h3
          let d ← hexVal h4
          let (tail, rem) ← parseStringBody rest'
          some (Char.ofNat (a * 4096 + b * 256 + c * 16 + d) :: tail, rem)
      | e :: rest' => do
          let c ←
            if e = '\"' then some '\"'
            else if e = '\\' then some '\\'
            else if e = '/' then some '/'
            else if e = 'b' then some '\x08'
            else if e = 'f' then some '\x0c'
            else if e = 'n' then some '\n'
            else if e = 'r' then some '\r'
            else if e = 't' then some '\t'
            else none
          let (tail, rem) ← parseStringBody rest'
          some (c :: tail, rem)
      | [] => none
    else if c.toNat < 32 then none
    else do
      let (tail, rem) ← parseStringBody rest
      some (c :: tail, rem)

/-- Lexer for a JSON number, returning its lexeme and the rest of the input. -/
def parseNumberBody (cs : List Char) : Option (List Char × List Char) :=
  let (sign, cs₁) :=
    match cs with
    | '-' :: rest => (['-'], rest)
    | _ => ([], cs)
  let intPart := cs₁.takeWhile Char.isDigit
  let cs₂ := cs₁.dropWhile Char.isDigit
  if intPart = [] then none
  else if intPart.length > 1 && intPart.head? = some '0' then none
  else
    let (fracPart, cs₃) :=
      match cs₂ with
      | '.' :: rest =>
          ('.' :: rest.takeWhile Char.isDigit, rest.dropWhile Char.isDigit)
      | _ => ([], cs₂)
    if fracPart = ['.'] then none
    else
      let (expPart, cs₄) :=
        match cs₃ with
        | e :: rest =>
            if e = 'e' || e = 'E' then
              match rest with
              | s :: rest' =>
                  if s = '+' || s = '-' then
                    (e :: s :: rest'.takeWhile Char.isDigit,
                     rest'.dropWhile Char.isDigit)
                  else
                    (e :: rest.takeWhile Char.isDigit,
                     rest.dropWhile Char.isDigit)
              | [] => ([e], [])
            else ([], cs₃)
        | [] => ([], cs₃)
      if expPart ≠ [] && ¬(expPart.getLast?.elim false Char.isDigit) then none
      else some (sign ++ intPart ++ fracPart ++ expPart, cs₄)

mutual

/-- Model of `JSON.parse` on one value: fuel-indexed recursive descent over
the JSON grammar.  Returns the parsed value and the unconsumed input; `none`
is the `SyntaxError` that `JSON.parse` would throw. -/
def parseVal : Nat → List Char → Option (JVal × List Char)
  | 0, _ => none
  | fuel + 1, cs =>
    match skipWs cs with
    | 'n' :: 'u' :: 'l' :: 'l' :: rest => some (.null, rest)
    | 't' :: 'r' :: 'u' :: 'e' :: rest => some (.bool true, rest)
    | 'f' :: 'a' :: 'l' :: 's' :: 'e' :: rest => some (.bool false, rest)
    | '\"' :: rest => do
        let (content, rem) ← parseStringBody rest
        some (.str ⟨content⟩, rem)
    | '[' :: rest =>
        (match skipWs rest with
         | ']' :: rem => some (.arr [], rem)
         | other => do
             let (elems, rem) ← parseElems fuel other
             some (.arr elems, rem))
    | '\x7b' :: rest =>
        (match skipWs rest with
         | '\x7d' :: rem => some (.obj [], rem)
         | other => do
             let (fields, rem) ← parseFields fuel other
             some (.obj fields, rem))
    | c :: rest =>
        if c = '-' || c.isDigit then do
          let (lex, rem) ← parseNumberBody (c :: rest)
          some (.num ⟨lex⟩, rem)
        else none
    | [] => none

/-- One or more array elements separated by commas, up to the closing `]`. -/
def parseElems : Nat → List Char → Option (List JVal × List Char)
  | 0, _ => none
  | fuel + 1, cs => do
      let (v, rest) ← parseVal fuel cs
      match skipWs rest with
      | ',' :: rest' => do
          let (vs, rem) ← parseElems fuel rest'
          some (v :: vs, rem)
      | ']' :: rem => some ([v], rem)
      | _ => none

/-- One or more object members separated by commas, up to the closing brace. -/
def parseFields : Nat → List Char → Option (List (String × JVal) × List Char)
  | 0, _ => none
  | fuel + 1, cs =>
      match skipWs cs with
      | '\"' :: rest => do
          let (key, rest₁) ← parseStringBody rest
          match skipWs rest₁ with
          | ':' :: rest₂ => do
              let (v, rest₃) ← parseVal fuel rest₂
              match skipWs rest₃ with
              | ',' :: rest₄ => do
                  let (fs, rem) ← parseFields fuel rest₄
                  some ((⟨key⟩, v) :: fs, rem)
              | '\x7d' :: rem => some ([(⟨key⟩, v)], rem)
              | _ => none
          | _ => none
      | _ => none

end

/-- Model of `JSON.parse`: parse one value and insist nothing but whitespace
follows.  The fuel `2 * length + 2` dominates the recursion depth, which
grows by at most two per consumed character. -/
def jsonParse (s : String) : Option JVal :=
  match parseVal (2 * s.data.length + 2) s.data with
  | some (v, rest) => if skipWs rest = [] then some v else none
  | none => none

/-- Field access on a parsed JSON object: `JSON.parse` keeps the last of
duplicate keys, so lookup prefers the rightmost binding. -/
def jlookup (key : String) : List (String × JVal) → Option JVal
  | [] => none
  | (k, v) :: rest =>
      match jlookup key rest with
      | some w => some w
      | none => if k == key then some v else none

/-- Translation of the per-element validation inside `handleImportFile`
(script.js lines 415-420): the element must carry a string `text` property
and a boolean `checked` property.  A non-object element fails the check
(for primitives `hasOwnProperty` is false, and for `null` the thrown
`TypeError` is caught by the same `catch` that reports invalid data). -/
def validImportItem : JVal → Bool
  | .obj fields =>
      (match jlookup "text" fields with
       | some (.str _) => true
       | _ => false) &&
      (match jlookup "checked" fields with
       | some (.bool _) => true
       | _ => false)
  | _ => false

/-- The `Item` view of a validated import element: its `text` and `checked`
properties (the only ones the script ever reads; extra fields are ignored). -/
def itemOfJson : JVal → Item
  | .obj fields =>
      ⟨(match jlookup "text" fields with
        | some (.str s) => s
        | _ => ""),
       (match jlookup "checked" fields with
        | some (.bool b) => b
        | _ => false)⟩
  | _ => ⟨"", false⟩

/-- Outcomes of the import handler, one per exit path of `handleImportFile`
(script.js lines 387-458). -/
inductive ImportOutcome where
  | noFile
  | invalidFileType
  | parseFailed
  | malformed
  | cancelled
  | replaced
deriving DecidableEq, Repr

/-- Translation of the post-parse part of `handleImportFile` (script.js lines
410-437), the spec's `replaceAll`: the parsed value must be an array whose
every element passes `validImportItem`, else the import is rejected with the
state untouched; on confirmation the whole list is replaced. -/
def handleImport (v : JVal) (confirmed : Bool) (items : List Item) :
    ImportOutcome × List Item :=
  match v with
  | .arr elems =>
      if elems.all validImportItem then
        if confirmed then (.replaced, elems.map itemOfJson)
        else (.cancelled, items)
      else (.malformed, items)
  | _ => (.malformed, items)

/-- Translation of `handleImportFile` (script.js lines 387-458) end to end:
no file selected, a filename not ending in `.json` (rejected before any read
or parse), a `JSON.parse` failure, and then `handleImport`. -/
def handleImportFile (file : Option (String × String)) (confirmed : Bool)
    (items : List Item) : ImportOutcome × List Item :=
  match file with
  | none => (.noFile, items)
  | some (name, content) =>
      if jsEndsWith name ".json" then
        match jsonParse content with
        | some v => handleImport v confirmed items
        | none => (.parseFailed, items)
      else (.invalidFileType, items)

/-- The `(item, index)` pairs built by `renderChecklist` (script.js line 167)
before sorting: each item with its canonical index. -/
def withIndices (items : List Item) : List (Item × Nat) :=
  items.enum.map fun p => (p.2, p.1)

/-- The comparator passed to `sort` in `renderChecklist` (script.js lines
170-177): checked items order after unchecked ones, ties broken by the
original index. -/
def displayCmp (a b : Item × Nat) : Int :=
  if a.1.checked != b.1.checked then (if a.1.checked then 1 else -1)
  else (a.2 : Int) - (b.2 : Int)

/-- The boolean order `a stays before b` induced by the comparator: a
non-positive comparator value. -/
def displayLe (a b : Item × Nat) : Bool :=
  displayCmp a b ≤ 0

/-- The display order derived in `renderChecklist` (script.js lines 165-177):
the indexed items sorted by `displayCmp`.  `Array.prototype.sort` is a stable
sort honouring the comparator, which `List.mergeSort` models exactly (with
this comparator the order is total, so every conforming sort agrees). -/
def displayOrder (items : List Item) : List (Item × Nat) :=
  (withIndices items).mergeSort displayLe

/-- Strict version of the display order, used to state its uniqueness:
unchecked strictly before checked, and strictly increasing canonical index
within a group. -/
def dispRel (a b : Item × Nat) : Prop :=
  (a.1.checked = false ∧ b.1.checked = true) ∨
  (a.1.checked = b.1.checked ∧ a.2 < b.2)

/-- Result of `loadItems`: the adopted in-memory value (as JSON data — a
hand-edited localStorage entry need not hold an item array), the content of
the persistence medium afterwards, and whether `saveItems` ran. -/
structure LoadResult where
  adopted : JVal
  storageAfter : Option String
  saveCalled : Bool

/-- The default list as the JSON value adopted on fallback. -/
def defaultsJson : JVal := itemsToJson DEFAULT_ITEMS

/-- Translation of `loadItems` (script.js lines 107-123).  A missing or empty
(falsy) stored string takes the first-use branch: defaults are adopted and
immediately persisted by `saveItems`.  A present string is parsed; on success
the parsed value is adopted as-is; a parse failure is caught, defaults are
adopted, and — notably — nothing is saved in the catch branch.  The function
is total: no exception escapes. -/
def loadItems (stored : Option String) : LoadResult :=
  match stored with
  | none => ⟨defaultsJson, some (saveString DEFAULT_ITEMS), true⟩
  | some s =>
      if s = "" then ⟨defaultsJson, some (saveString DEFAULT_ITEMS), true⟩
      else
        match jsonParse s with
        | some v => ⟨v, some s, false⟩
        | none => ⟨defaultsJson, some s, false⟩

/-- The confirmed branch of `handleReset` as executed (script.js lines
327-335): clear every flag, then `saveItems()` unconditionally — even when
nothing changed the write still happens. -/
def handleResetConfirm (items : List Item) : List Item × String :=
  (resetChecks items, saveString (resetChecks items))

lemma set_getD_self (l : List Item) (n : Nat) (d : Item) (h : n < l.length) :
    l.set n (l.getD n d) = l := by
  apply List.ext_getElem?
  intro j
  rw [List.getElem?_set]
  split
  · next heq =>
      subst heq
      rw [List.getD_eq_getElem?_getD, List.getElem?_eq_getElem h]
      rfl
  · rfl

/-- C1: `handleAddItem` trims its input; an empty trimmed result fails with
the empty-text error and a case-insensitively duplicated text fails with the
duplicate error, both leaving the list untouched; otherwise exactly one new
unchecked item with the trimmed text is appended after the unchanged prior
items. -/
theorem c1_add_contract (raw : String) (items : List Item) :
    (jsTrim raw = "" → handleAddItem raw items = .error .emptyText) ∧
    (jsTrim raw ≠ "" →
      (∃ it ∈ items, jsToLower it.text = jsToLower (jsTrim raw)) →
      handleAddItem raw items = .error .duplicateText) ∧
    (jsTrim raw ≠ "" →
      (∀ it ∈ items, jsToLower it.text ≠ jsToLower (jsTrim raw)) →
      handleAddItem raw items = .ok (items ++ [⟨jsTrim raw, false⟩])) := by
  refine ⟨fun h => ?_, fun h hdup => ?_, fun h hfresh => ?_⟩
  · simp [handleAddItem, h]
  · obtain ⟨it, hit, heq⟩ := hdup
    have : items.find? (fun x => jsToLower x.text == jsToLower (jsTrim raw)) ≠ none := by
      intro hnone
      exact absurd (by simpa using heq) (by simpa using List.find?_eq_none.mp hnone it hit)
    simp only [handleAddItem, if_neg h]
    cases hfind : items.find? (fun x => jsToLower x.text == jsToLower (jsTrim raw)) with
    | none => exact absurd hfind this
    | some it' => rfl
  · have : items.find? (fun x => jsToLower x.text == jsToLower (jsTrim raw)) = none := by
      rw [List.find?_eq_none]
      intro it hit
      simpa using hfresh it hit
    simp only [handleAddItem, if_neg h, this]

/-- Witness for C1 at the spec's own examples: `add("  ")` fails with the
empty-text error, adding `"towel"` to a list containing `"Towel"` fails with
the duplicate error, and `add("  Socks  ")` appends `text "Socks"`. -/
theorem c1_add_contract_witness :
    handleAddItem "  " [⟨"Towel", false⟩] = .error .emptyText ∧
    handleAddItem "towel" [⟨"Towel", false⟩] = .error .duplicateText ∧
    handleAddItem "  Socks  " [⟨"Towel", false⟩] =
      .ok [⟨"Towel", false⟩, ⟨"Socks", false⟩] :=
  ⟨(c1_add_contract "  " [⟨"Towel", false⟩]).1 (by decide),
   (c1_add_contract "towel" [⟨"Towel", false⟩]).2.1 (by decide)
     ⟨⟨"Towel", false⟩, by decide⟩,
   (c1_add_contract "  Socks  " [⟨"Towel", false⟩]).2.2 (by decide) (by decide)⟩

/-- C6: the shared indexing contract of `handleToggleItem` and
`handleDeleteItem`.  An index outside `[0, length)` is rejected with the
state untouched and nothing persisted (the handlers' silent failure path,
the spec's `IndexError`); an in-range toggle flips exactly that item's
`checked` flag, and an in-range confirmed delete removes exactly that item,
all later items shifting down by one. -/
theorem c6_index_contract (index : Int) (items : List Item) :
    (¬(0 ≤ index ∧ index < items.length) →
      handleToggleItem index items = none ∧
      ∀ confirmed, handleDeleteItem index confirmed items = none) ∧
    (0 ≤ index → index < items.length →
      (∃ l', handleToggleItem index items = some l' ∧
        l'.length = items.length ∧
        (∀ j : Nat, j ≠ index.toNat → l'[j]? = items[j]?) ∧
        l'[index.toNat]? =
          (items[index.toNat]?).map fun it => ⟨it.text, !it.checked⟩) ∧
      handleDeleteItem index true items =
        some (items.take index.toNat ++ items.drop (index.toNat + 1))) := by
  constructor
  · intro h
    exact ⟨by simp [handleToggleItem, h], fun confirmed => by simp [handleDeleteItem, h]⟩
  · intro h₀ h₁
    have hlt : index.toNat < items.length := by omega
    constructor
    · refine ⟨items.set index.toNat
        ⟨(items.getD index.toNat ⟨"", false⟩).text,
         !(items.getD index.toNat ⟨"", false⟩).checked⟩, ?_, List.length_set .., ?_, ?_⟩
      · unfold handleToggleItem
        rw [if_pos ⟨h₀, h₁⟩]
      · intro j hj
        exact List.getElem?_set_ne (fun hh => hj hh.symm)
      · rw [List.getElem?_set_self hlt, List.getElem?_eq_getElem hlt,
          List.getD_eq_getElem?_getD, List.getElem?_eq_getElem hlt]
        rfl
    · unfold handleDeleteItem
      rw [if_pos ⟨h₀, h₁⟩, if_pos rfl, List.eraseIdx_eq_take_drop_succ]

/-- Witness for C6 on the two-item list `[A, B]`: index `2` and index `-1`
are rejected for both operations, toggling index `1` flips `B`, and a
confirmed delete of index `0` removes `A` and shifts `B` down. -/
theorem c6_index_contract_witness :
    (handleToggleItem 2 [⟨"A", false⟩, ⟨"B", true⟩] = none ∧
      ∀ confirmed, handleDeleteItem 2 confirmed [⟨"A", false⟩, ⟨"B", true⟩] = none) ∧
    (handleToggleItem (-1) [⟨"A", false⟩, ⟨"B", true⟩] = none) ∧
    (∃ l', handleToggleItem 1 [⟨"A", false⟩, ⟨"B", true⟩] = some l' ∧
      l'.length = 2 ∧
      (∀ j : Nat, j ≠ 1 → l'[j]? = [(⟨"A", false⟩ : Item), ⟨"B", true⟩][j]?) ∧
      l'[1]? = ([(⟨"A", false⟩ : Item), ⟨"B", true⟩][1]?).map
        fun it => ⟨it.text, !it.checked⟩) ∧
    handleDeleteItem 0 true [⟨"A", false⟩, ⟨"B", true⟩] = some [⟨"B", true⟩] :=
  ⟨(c6_index_contract 2 [⟨"A", false⟩, ⟨"B", true⟩]).1 (by decide),
   ((c6_index_contract (-1) [⟨"A", false⟩, ⟨"B", true⟩]).1 (by decide)).1,
   ((c6_index_contract 1 [⟨"A", false⟩, ⟨"B", true⟩]).2 (by decide) (by decide)).1,
   ((c6_index_contract 0 [⟨"A", false⟩, ⟨"B", true⟩]).2 (by decide) (by decide)).2⟩

/-- C7: toggling the same in-range index twice restores the original list
exactly — the flag round-trips and no text, membership or ordering changes. -/
theorem c7_toggle_roundtrip (index : Int) (items : List Item)
    (h₀ : 0 ≤ index) (h₁ : index < items.length) :
    (handleToggleItem index items).bind (handleToggleItem index) = some items := by
  have hlt : index.toNat < items.length := by omega
  have hd : ∀ (l : List Item) (h : index.toNat < l.length),
      l.getD index.toNat ⟨"", false⟩ = l[index.toNat] := by
    intro l h
    rw [List.getD_eq_getElem?_getD, List.getElem?_eq_getElem h]
    rfl
  unfold handleToggleItem
  rw [if_pos ⟨h₀, h₁⟩]
  have hlt' : index.toNat < (items.set index.toNat
      ⟨(items.getD index.toNat ⟨"", false⟩).text,
       !(items.getD index.toNat ⟨"", false⟩).checked⟩).length := by
    rw [List.length_set]; exact hlt
  rw [Option.some_bind, if_pos ⟨h₀, by rw [List.length_set]; exact h₁⟩]
  congr 1
  rw [hd _ hlt', List.getElem_set_self hlt', hd _ hlt, List.set_set]
  show items.set index.toNat
    ⟨items[index.toNat].text, !!items[index.toNat].checked⟩ = items
  rw [Bool.not_not]
  have := set_getD_self items index.toNat ⟨"", false⟩ hlt
  rw [hd _ hlt] at this
  calc items.set index.toNat ⟨items[index.toNat].text, items[index.toNat].checked⟩
      = items.set index.toNat items[index.toNat] := rfl
    _ = items := this

/-- Witness for C7: toggling index `0` twice on `[A(unchecked)]` returns the
original list. -/
theorem c7_toggle_roundtrip_witness :
    (handleToggleItem 0 [⟨"A", false⟩]).bind (handleToggleItem 0) =
      some [⟨"A", false⟩] :=
  c7_toggle_roundtrip 0 [⟨"A", false⟩] (by decide) (by decide)

/-- C8: the reset operation (the confirmed branch of `handleReset`) clears
every `checked` flag while keeping length, order and every `text` unchanged;
it is idempotent; and on an already all-unchecked list it leaves the list
exactly as it was while the branch still issues its unconditional persist of
the unchanged content (no-op persist). -/
theorem c8_reset_contract (items : List Item) :
    (resetChecks items).length = items.length ∧
    (∀ j : Nat, ((resetChecks items)[j]?).map Item.text =
      (items[j]?).map Item.text) ∧
    (∀ it ∈ resetChecks items, it.checked = false) ∧
    resetChecks (resetChecks items) = resetChecks items ∧
    ((∀ it ∈ items, it.checked = false) →
      resetChecks items = items ∧
      handleResetConfirm items = (items, saveString items)) := by
  refine ⟨List.length_map .., fun j => ?_, fun it hit => ?_, ?_, fun hall => ?_⟩
  · rw [resetChecks, List.getElem?_map]
    cases items[j]? <;> rfl
  · obtain ⟨it', _, rfl⟩ := List.mem_map.mp hit
    rfl
  · rw [resetChecks, resetChecks, List.map_map]
    rfl
  · have hid : resetChecks items = items := by
      rw [resetChecks]
      conv_rhs => rw [← List.map_id items]
      exact List.map_congr_left fun it hit => by
        have := hall it hit
        cases it
        simp_all
    exact ⟨hid, by rw [handleResetConfirm, hid]⟩

/-- Witness for C8 at a list whose items are all unchecked: the list is
returned unchanged and the persist of the identical content still happens. -/
theorem c8_reset_contract_witness :
    resetChecks [⟨"A", false⟩, ⟨"B", false⟩] = [⟨"A", false⟩, ⟨"B", false⟩] ∧
    handleResetConfirm [⟨"A", false⟩, ⟨"B", false⟩] =
      ([⟨"A", false⟩, ⟨"B", false⟩], saveString [⟨"A", false⟩, ⟨"B", false⟩]) :=
  (c8_reset_contract [⟨"A", false⟩, ⟨"B", false⟩]).2.2.2.2 (by decide)

/-- C9: with an empty canonical sequence `handleExport` stops at its early
return — no snapshot string is produced, no serialization runs, and the
handler leaves the item list and the persistence medium untouched (it never
writes to either in any branch). -/
theorem c9_export_empty (items : List Item) (h : items.length = 0) :
    handleExport items = none := by
  rw [handleExport, if_pos h]

/-- Witness for C9 at the empty list. -/
theorem c9_export_empty_witness : handleExport [] = none :=
  c9_export_empty [] rfl

/-- C10: a selected file whose name does not end in `.json` is rejected by
the filename guard before any read, parse or confirmation, with the outcome
independent of the confirmation answer and the item list returned untouched. -/
theorem c10_import_filename_guard (name content : String) (confirmed : Bool)
    (items : List Item) (h : jsEndsWith name ".json" = false) :
    handleImportFile (some (name, content)) confirmed items =
      (.invalidFileType, items) := by
  rw [handleImportFile]
  rw [h]
  rfl

/-- Witness for C10: selecting `backup.txt` is rejected as an invalid file
type regardless of any confirmation, leaving the list unchanged. -/
theorem c10_import_filename_guard_witness :
    handleImportFile (some ("backup.txt", "[]")) true [⟨"A", true⟩] =
      (.invalidFileType, [⟨"A", true⟩]) :=
  c10_import_filename_guard "backup.txt" "[]" true [⟨"A", true⟩] (by decide)

/-- C2: `handleImport` (the spec's `replaceAll`) rejects a non-array value,
and rejects an array any of whose elements lacks a string `text` or boolean
`checked` property, in both cases with the malformed-import outcome and the
previous state returned completely unchanged — no partial import can occur. -/
theorem c2_import_validation :
    (∀ (v : JVal) (confirmed : Bool) (items : List Item),
      (∀ l, v ≠ .arr l) →
      handleImport v confirmed items = (.malformed, items)) ∧
    (∀ (l : List JVal) (confirmed : Bool) (items : List Item),
      (∃ e ∈ l, validImportItem e = false) →
      handleImport (.arr l) confirmed items = (.malformed, items)) := by
  constructor
  · intro v confirmed items hv
    cases v with
    | arr l => exact absurd rfl (hv l)
    | null => rfl
    | bool b => rfl
    | num n => rfl
    | str s => rfl
    | obj f => rfl
  · intro l confirmed items hbad
    have : l.all validImportItem = false := by
      rw [List.all_eq_false]
      obtain ⟨e, he, hv⟩ := hbad
      exact ⟨e, he, by simp [hv]⟩
    rw [handleImport, this]
    rfl

/-- Witness for C2 at the spec's example: an array with one element that has
`text` but no `checked` property is rejected atomically with the prior state
(snapshotted here as `[⟨"A", true⟩]`) unchanged. -/
theorem c2_import_validation_witness :
    handleImport (.arr [.obj [("text", .str "Towel")]]) true [⟨"A", true⟩] =
      (.malformed, [⟨"A", true⟩]) :=
  c2_import_validation.2 [.obj [("text", .str "Towel")]] true [⟨"A", true⟩]
    ⟨.obj [("text", .str "Towel")], by simp, rfl⟩

lemma dispRel_antisymm : ∀ a b : Item × Nat, dispRel a b → dispRel b a → a = b := by
  intro a b hab hba
  exfalso
  rcases hab with ⟨h₁, h₂⟩ | ⟨h₁, h₂⟩ <;> rcases hba with ⟨h₃, h₄⟩ | ⟨h₃, h₄⟩
  · rw [h₂] at h₃
    exact Bool.noConfusion h₃
  · rw [h₁, h₂] at h₃
    exact Bool.noConfusion h₃
  · rw [h₄, h₃] at h₁
    exact Bool.noConfusion h₁
  · omega

lemma pairwise_idx_withIndices (items : List Item) :
    List.Pairwise (fun a b : Item × Nat => a.2 < b.2) (withIndices items) := by
  rw [withIndices, List.pairwise_map]
  have h₁ : List.Pairwise (fun a b : Nat × Item => a.1 < b.1) items.enum := by
    rw [← List.pairwise_map (f := Prod.fst), List.enum, List.enumFrom_map_fst]
    exact List.pairwise_lt_range' 0 items.length
  exact h₁.imp fun h => h

lemma displayLe_trans : ∀ a b c : Item × Nat,
    displayLe a b = true → displayLe b c = true → displayLe a c = true := by
  intro a b c hab hbc
  cases ha : a.1.checked <;> cases hb : b.1.checked <;> cases hc : c.1.checked <;>
    simp_all [displayLe, displayCmp] <;> omega

lemma displayLe_total : ∀ a b : Item × Nat,
    (displayLe a b || displayLe b a) = true := by
  intro a b
  cases ha : a.1.checked <;> cases hb : b.1.checked <;>
    simp_all [displayLe, displayCmp] <;> omega

lemma displayLe_ne_dispRel : ∀ a b : Item × Nat,
    displayLe a b = true → a.2 ≠ b.2 → dispRel a b := by
  intro a b hle hne
  rw [dispRel]
  cases ha : a.1.checked <;> cases hb : b.1.checked <;>
    simp_all [displayLe, displayCmp] <;> omega

/-- C4: `displayOrder` is the stable partition of the indexed canonical
sequence: all unchecked items (paired with their canonical indices, in
canonical order) followed by all checked items (likewise in canonical
order); for `[A(unchecked), B(checked), C(unchecked)]` this is `[A, C, B]`.
The derivation reads the state without mutating it. -/
theorem c4_display_order_stable_partition (items : List Item) :
    displayOrder items =
      (withIndices items).filter (fun p => !p.1.checked) ++
      (withIndices items).filter (fun p => p.1.checked) := by
  have hPw := pairwise_idx_withIndices items
  have hperm : (displayOrder items).Perm (withIndices items) :=
    List.mergeSort_perm (withIndices items) displayLe
  have hsortedLe : List.Pairwise (fun a b => displayLe a b = true)
      (displayOrder items) :=
    List.sorted_mergeSort displayLe_trans displayLe_total (withIndices items)
  have hpermR : ((withIndices items).filter (fun p => !p.1.checked) ++
      (withIndices items).filter (fun p => p.1.checked)).Perm (withIndices items) := by
    have hp := List.filter_append_perm (fun p : Item × Nat => !p.1.checked)
      (withIndices items)
    have hcong : (withIndices items).filter (fun p : Item × Nat => !!p.1.checked) =
        (withIndices items).filter (fun p => p.1.checked) :=
      List.filter_congr fun x _ => by rw [Bool.not_not]
    rwa [hcong] at hp
  have hne : List.Pairwise (fun a b : Item × Nat => a.2 ≠ b.2) (displayOrder items) := by
    have h₁ : List.Pairwise (fun a b : Item × Nat => a.2 ≠ b.2) (withIndices items) :=
      hPw.imp fun h => Nat.ne_of_lt h
    have h₂ : ((withIndices items).map Prod.snd).Nodup := List.pairwise_map.mpr h₁
    have h₃ : ((displayOrder items).map Prod.snd).Nodup :=
      ((hperm.map Prod.snd).nodup_iff).mpr h₂
    exact List.pairwise_map.mp h₃
  have hstrictL : List.Pairwise dispRel (displayOrder items) :=
    (hsortedLe.and hne).imp fun h => displayLe_ne_dispRel _ _ h.1 h.2
  have hstrictR : List.Pairwise dispRel
      ((withIndices items).filter (fun p => !p.1.checked) ++
       (withIndices items).filter (fun p => p.1.checked)) := by
    rw [List.pairwise_append]
    refine ⟨?_, ?_, ?_⟩
    · refine (hPw.filter _).imp_of_mem fun {a} {b} ha hb hlt => Or.inr ⟨?_, hlt⟩
      have ha' := List.of_mem_filter ha
      have hb' := List.of_mem_filter hb
      simp only [Bool.not_eq_true'] at ha' hb'
      rw [ha', hb']
    · refine (hPw.filter _).imp_of_mem fun {a} {b} ha hb hlt => Or.inr ⟨?_, hlt⟩
      have ha' := List.of_mem_filter ha
      have hb' := List.of_mem_filter hb
      rw [ha', hb']
    · intro a ha b hb
      have ha' := List.of_mem_filter ha
      have hb' := List.of_mem_filter hb
      simp only [Bool.not_eq_true'] at ha'
      exact Or.inl ⟨ha', hb'⟩
  haveI : IsAntisymm (Item × Nat) dispRel := ⟨dispRel_antisymm⟩
  exact List.eq_of_perm_of_sorted (hperm.trans hpermR.symm) hstrictL hstrictR

lemma skipWs_append_ws (p l : List Char) (hp : ∀ c ∈ p, isJsonWs c = true) :
    skipWs (p ++ l) = skipWs l := by
  induction p with
  | nil => rfl
  | cons c cs ih =>
      rw [List.cons_append, skipWs, List.dropWhile_cons,
        if_pos (hp c (List.mem_cons_self c cs))]
      exact ih fun x hx => hp x (List.mem_cons_of_mem c hx)

lemma skipWs_cons_neg (c : Char) (l : List Char) (hc : isJsonWs c = false) :
    skipWs (c :: l) = c :: l := by
  rw [skipWs, List.dropWhile_cons, if_neg (by simp [hc])]

lemma hexVal_hexDigit : ∀ m : Nat, m < 16 → hexVal (hexDigit m) = some m := by
  decide

lemma parseStringBody_roundtrip (cs : List Char) (rest : List Char) :
    parseStringBody ((cs.map escChar).flatten ++ '\"' :: rest) = some (cs, rest) := by
  induction cs with
  | nil =>
      rw [List.map_nil, List.flatten_nil, List.nil_append, parseStringBody.eq_def]
      simp
  | cons c cs ih =>
      rw [List.map_cons, List.flatten_cons, List.append_assoc]
      by_cases h1 : c = '\"'
      · subst h1
        simp [escChar, parseStringBody, ih]
      · by_cases h2 : c = '\\'
        · subst h2
          simp [escChar, parseStringBody, ih]
        · by_cases h3 : c = '\x08'
          · subst h3
            simp [escChar, parseStringBody, ih]
          · by_cases h4 : c = '\t'
            · subst h4
              simp [escChar, parseStringBody, ih]
            · by_cases h5 : c = '\n'
              · subst h5
                simp [escChar, parseStringBody, ih]
              · by_cases h6 : c = '\x0c'
                · subst h6
                  simp [escChar, parseStringBody, ih]
                · by_cases h7 : c = '\r'
                  · subst h7
                    simp [escChar, parseStringBody, ih]
                  · by_cases h8 : c.toNat < 32
                    · rw [escChar, if_neg h1, if_neg h2, if_neg h3, if_neg h4,
                        if_neg h5, if_neg h6, if_neg h7, if_pos h8]
                      have hdiv : c.toNat / 16 < 16 := by omega
                      have hmod : c.toNat % 16 < 16 := by omega
                      have hchar : Char.ofNat (c.toNat / 16 * 16 + c.toNat % 16) = c := by
                        rw [show c.toNat / 16 * 16 + c.toNat % 16 = c.toNat from by omega,
                          Char.ofNat_toNat]
                      have h0 : hexVal '0' = some 0 := by decide
                      simp [parseStringBody, h0, hexVal_hexDigit _ hdiv,
                        hexVal_hexDigit _ hmod, ih, hchar]
                    · rw [escChar, if_neg h1, if_neg h2, if_neg h3, if_neg h4,
                        if_neg h5, if_neg h6, if_neg h7, if_neg h8]
                      rw [parseStringBody.eq_def]
                      simp [h1, h2, h8, ih]

lemma skipWs_ws_cons (c : Char) (l : List Char) (hc : isJsonWs c = true) :
    skipWs (c :: l) = skipWs l := by
  rw [skipWs, List.dropWhile_cons, if_pos (by simp [hc])]
  rfl

lemma string_eta (s : String) : String.mk s.data = s := rfl

lemma parseVal_itemJson (it : Item) (ind : List Char) (f : Nat) (rest : List Char)
    (hind : ∀ c ∈ ind, isJsonWs c = true) (hf : 4 ≤ f) :
    parseVal f (strVal ind (itemJson it) ++ rest) = some (itemJson it, rest) := by
  obtain ⟨k, rfl⟩ : ∃ k, f = k + 1 + 1 + 1 + 1 := ⟨f - 4, by omega⟩
  have hind2 : ∀ c ∈ ind ++ [' ', ' '], isJsonWs c = true := by
    intro c hc
    rcases List.mem_append.mp hc with h | h
    · exact hind c h
    · have h' : c = ' ' ∨ c = ' ' ∨ False := by simpa using h
      rcases h' with rfl | rfl | hFalse
      · decide
      · decide
      · exact hFalse.elim
  have hskip : ∀ l, skipWs (ind ++ [' ', ' '] ++ l) = skipWs l :=
    fun l => skipWs_append_ws _ l hind2
  have hskipInd : ∀ l, skipWs (ind ++ l) = skipWs l :=
    fun l => skipWs_append_ws _ l hind
  have hnl : ∀ l, skipWs ('\n' :: l) = skipWs l :=
    fun l => skipWs_ws_cons _ l (by decide)
  have hsp : ∀ l, skipWs (' ' :: l) = skipWs l :=
    fun l => skipWs_ws_cons _ l (by decide)
  have hqt : ∀ l, skipWs ('\"' :: l) = '\"' :: l :=
    fun l => skipWs_cons_neg _ l (by decide)
  have hlb : ∀ l, skipWs ('\x7b' :: l) = '\x7b' :: l :=
    fun l => skipWs_cons_neg _ l (by decide)
  have hrb : ∀ l, skipWs ('\x7d' :: l) = '\x7d' :: l :=
    fun l => skipWs_cons_neg _ l (by decide)
  have hco : ∀ l, skipWs (':' :: l) = ':' :: l :=
    fun l => skipWs_cons_neg _ l (by decide)
  have hcm : ∀ l, skipWs (',' :: l) = ',' :: l :=
    fun l => skipWs_cons_neg _ l (by decide)
  have htr : ∀ l, skipWs ('t' :: l) = 't' :: l :=
    fun l => skipWs_cons_neg _ l (by decide)
  have hfa : ∀ l, skipWs ('f' :: l) = 'f' :: l :=
    fun l => skipWs_cons_neg _ l (by decide)
  cases hb : it.checked <;>
    simp [itemJson, strVal, strFields, quoteStr, escChar, parseVal, parseFields,
      parseStringBody, List.append_assoc, List.cons_append, List.nil_append,
      hb, hskip, hskipInd, hnl, hsp, hqt, hlb, hrb, hco, hcm, htr, hfa,
      parseStringBody_roundtrip, string_eta]

lemma parseVal_leading_ws (f : Nat) (pre l : List Char)
    (hpre : ∀ c ∈ pre, isJsonWs c = true) :
    parseVal f (pre ++ l) = parseVal f l := by
  cases f with
  | zero => rfl
  | succ k =>
      simp only [parseVal]
      rw [skipWs_append_ws pre l hpre]

lemma parseElems_items (its : List Item) (it : Item) (ind ind0 pre : List Char)
    (f : Nat) (rest : List Char)
    (hind : ∀ c ∈ ind, isJsonWs c = true)
    (hind0 : ∀ c ∈ ind0, isJsonWs c = true)
    (hpre : ∀ c ∈ pre, isJsonWs c = true)
    (hf : its.length + 5 ≤ f) :
    parseElems f (pre ++ strElems ind (itemJson it) (its.map itemJson) ++
      '\n' :: ind0 ++ ']' :: rest) = some ((it :: its).map itemJson, rest) := by
  induction its generalizing it pre f rest with
  | nil =>
      obtain ⟨k, rfl⟩ : ∃ k, f = k + 1 := ⟨f - 1, by omega⟩
      have hnl : ∀ l, skipWs ('\n' :: l) = skipWs l :=
        fun l => skipWs_ws_cons _ l (by decide)
      have hskipInd0 : ∀ l, skipWs (ind0 ++ l) = skipWs l :=
        fun l => skipWs_append_ws _ l hind0
      have hrsq : ∀ l, skipWs (']' :: l) = ']' :: l :=
        fun l => skipWs_cons_neg _ l (by decide)
      simp only [List.map_nil, strElems, parseElems, List.append_assoc]
      rw [parseVal_leading_ws k pre _ hpre,
        parseVal_itemJson it ind k _ hind (by omega)]
      simp [hnl, hskipInd0, hrsq]
  | cons w ws ih =>
      obtain ⟨k, rfl⟩ : ∃ k, f = k + 1 := ⟨f - 1, by omega⟩
      have hcm : ∀ l, skipWs (',' :: l) = ',' :: l :=
        fun l => skipWs_cons_neg _ l (by decide)
      have hih := ih w ('\n' :: ind) k rest (by
        intro c hc
        rcases List.mem_cons.mp hc with rfl | hc
        · decide
        · exact hind c hc) (by simp only [List.length_cons] at hf; omega)
      simp only [List.map_cons, strElems, parseElems, List.append_assoc,
        List.cons_append] at hih ⊢
      rw [parseVal_leading_ws k pre _ hpre,
        parseVal_itemJson it ind k _ hind (by omega)]
      simp [hcm, hih]

lemma strElems_item_head (ind : List Char) (it : Item) (l : List JVal) :
    ∃ t, strElems ind (itemJson it) l = '\x7b' :: t := by
  cases l with
  | nil =>
      simp only [strElems, itemJson, strVal]
      exact ⟨_, rfl⟩
  | cons w ws =>
      simp only [strElems, itemJson, strVal, List.cons_append, List.append_assoc]
      exact ⟨_, rfl⟩

lemma parseVal_itemsToJson (items : List Item) (f : Nat) (rest : List Char)
    (hf : items.length + 6 ≤ f) :
    parseVal f (strVal [] (itemsToJson items) ++ rest) =
      some (itemsToJson items, rest) := by
  obtain ⟨k, rfl⟩ : ∃ k, f = k + 1 := ⟨f - 1, by omega⟩
  have hlsq : ∀ l, skipWs ('[' :: l) = '[' :: l :=
    fun l => skipWs_cons_neg _ l (by decide)
  have hrsq : ∀ l, skipWs (']' :: l) = ']' :: l :=
    fun l => skipWs_cons_neg _ l (by decide)
  cases items with
  | nil => simp [itemsToJson, strVal, parseVal, hlsq, hrsq]
  | cons it its =>
      have hnl : ∀ l, skipWs ('\n' :: l) = skipWs l :=
        fun l => skipWs_ws_cons _ l (by decide)
      have hsp : ∀ l, skipWs (' ' :: l) = skipWs l :=
        fun l => skipWs_ws_cons _ l (by decide)
      have hlb : ∀ l, skipWs ('\x7b' :: l) = '\x7b' :: l :=
        fun l => skipWs_cons_neg _ l (by decide)
      obtain ⟨t, ht⟩ := strElems_item_head [' ', ' '] it (its.map itemJson)
      have hpe := parseElems_items its it [' ', ' '] [] [] k rest
        (by
          intro c hc
          have h' : c = ' ' ∨ c = ' ' ∨ False := by simpa using hc
          rcases h' with rfl | rfl | hFalse
          · decide
          · decide
          · exact hFalse.elim)
        (by intro c hc; exact absurd hc (List.not_mem_nil c))
        (by intro c hc; exact absurd hc (List.not_mem_nil c))
        (by simp only [List.length_cons] at hf; omega)
      simp only [List.nil_append, List.cons_append, List.append_assoc, ht,
        List.map_cons] at hpe
      simp [itemsToJson, strVal, parseVal, hlsq, hnl, hsp, hlb, ht, hpe]

lemma strVal_itemJson_length_pos (ind : List Char) (it : Item) :
    1 ≤ (strVal ind (itemJson it)).length := by
  obtain ⟨t, ht⟩ := strElems_item_head ind it []
  have h : strElems ind (itemJson it) [] = strVal ind (itemJson it) := by
    simp [strElems]
  rw [← h, ht]
  simp

lemma strElems_items_length (its : List Item) (it : Item) (ind : List Char) :
    its.length + 1 ≤ (strElems ind (itemJson it) (its.map itemJson)).length := by
  induction its generalizing it with
  | nil =>
      simp only [List.map_nil, strElems, List.length_nil]
      exact strVal_itemJson_length_pos ind it
  | cons w ws ih =>
      have h1 := strVal_itemJson_length_pos ind it
      have h2 := ih w
      simp only [List.map_cons, strElems, List.length_cons, List.length_append,
        List.cons_append] at *
      omega

lemma exportString_length (items : List Item) :
    items.length + 2 ≤ (strVal [] (itemsToJson items)).length := by
  cases items with
  | nil => simp [itemsToJson, strVal]
  | cons it its =>
      have h := strElems_items_length its it [' ', ' ']
      simp only [itemsToJson, List.map_cons, strVal, List.length_cons,
        List.length_append, List.nil_append, List.cons_append] at *
      omega

lemma jsonParse_exportString (items : List Item) :
    jsonParse (exportString items) = some (itemsToJson items) := by
  have hlen := exportString_length items
  rw [jsonParse, exportString]
  show (match parseVal (2 * (strVal [] (itemsToJson items)).length + 2)
      (strVal [] (itemsToJson items)) with
    | some (v, rest) => if skipWs rest = [] then some v else none
    | none => none) = some (itemsToJson items)
  rw [show strVal [] (itemsToJson items) =
    strVal [] (itemsToJson items) ++ [] from by simp]
  rw [parseVal_itemsToJson items _ [] (by
    rw [List.length_append, List.length_nil, Nat.add_zero]
    omega)]
  rfl

lemma validImportItem_itemJson (it : Item) :
    validImportItem (itemJson it) = true := rfl

lemma itemOfJson_itemJson (it : Item) : itemOfJson (itemJson it) = it := by
  cases it
  rfl

lemma handleImport_itemsToJson (items prior : List Item) :
    handleImport (itemsToJson items) true prior = (.replaced, items) := by
  rw [itemsToJson, handleImport]
  have hall : (items.map itemJson).all validImportItem = true := by
    rw [List.all_eq_true]
    intro x hx
    obtain ⟨it, _, rfl⟩ := List.mem_map.mp hx
    exact validImportItem_itemJson it
  rw [hall]
  simp only [if_true, List.map_map]
  have : (items.map (itemOfJson ∘ itemJson)) = items := by
    conv_rhs => rw [← List.map_id items]
    exact List.map_congr_left fun it _ => itemOfJson_itemJson it
  rw [this]

/-- C5: the export-then-import round-trip.  Parsing the pretty JSON snapshot
produced by `handleExport` recovers exactly the serialized item array, and
applying the import operation (`replaceAll`) to that parsed value succeeds
and replaces any prior state with a list structurally equal to the exported
one — same items, same order, same `text` and `checked` values. -/
theorem c5_export_import_roundtrip (items prior : List Item) :
    jsonParse (exportString items) = some (itemsToJson items) ∧
    handleImport (itemsToJson items) true prior = (.replaced, items) :=
  ⟨jsonParse_exportString items, handleImport_itemsToJson items prior⟩

/-- C3 counterexample: a stored string that fails to parse (a lone opening
brace).  `loadItems` falls back to the default items but the catch branch
performs no save: the persistence medium keeps the corrupt string and
`saveCalled` is `false`, contradicting the claim that the default set is
persisted in the parse-failure case as well. -/
theorem c3_load_counterexample :
    jsonParse "\x7b" = none ∧
    loadItems (some "\x7b") =
      ⟨defaultsJson, some "\x7b", false⟩ :=
  ⟨rfl, rfl⟩

/-- C3 as amended: `loadItems` is a total function (no exception escapes);
when the stored data is absent — or empty, which the script's truthiness
test treats the same way — the six default items (all unchecked) are adopted
and immediately persisted via `saveItems`; when stored data is present but
fails to parse, the same six defaults are adopted but nothing is saved and
the medium keeps its old content. -/
theorem c3_load_fallback (stored : Option String) :
    (stored = none ∨ stored = some "" →
      loadItems stored = ⟨defaultsJson, some (saveString DEFAULT_ITEMS), true⟩) ∧
    (∀ s, stored = some s → s ≠ "" → jsonParse s = none →
      loadItems stored = ⟨defaultsJson, some s, false⟩) ∧
    DEFAULT_ITEMS.map Item.text =
      ["Towel", "Water bottle", "Headphones", "Gym shoes", "Workout clothes",
       "Lock"] ∧
    (∀ it ∈ DEFAULT_ITEMS, it.checked = false) := by
  refine ⟨fun h => ?_, fun s hs hne hparse => ?_, by decide, by decide⟩
  · rcases h with rfl | rfl
    · rfl
    · rfl
  · subst hs
    rw [loadItems, if_neg (by simpa using hne), hparse]

/-- Witness for C3 (amended): the absent-storage branch adopts and saves the
defaults, and the concrete unparseable string `"not json"` adopts the
defaults without saving. -/
theorem c3_load_fallback_witness :
    loadItems none = ⟨defaultsJson, some (saveString DEFAULT_ITEMS), true⟩ ∧
    loadItems (some "not json") = ⟨defaultsJson, some "not json", false⟩ :=
  ⟨(c3_load_fallback none).1 (Or.inl rfl),
   (c3_load_fallback (some "not json")).2.1 "not json" rfl (by decide) rfl⟩
